import Mathlib

/-!
Shallow embedding of the netsuite-sdk HTTP transport core
(retry engine, OAuth re-signing, middleware chain, error classification,
SuiteQL pagination, account-id normalization), with theorems checking the
specification's claims against the code.
-/

set_option linter.unusedVariables false

namespace NetSuiteSDK

/-! ## Retry engine (src/transport/retry.ts, `withRetry`)

The TypeScript loop
```
for (let attempt = 0; attempt <= opts.maxRetries; attempt++) {
  try { return await fn(); }
  catch (error) {
    const isLastAttempt = attempt === opts.maxRetries;
    if (isLastAttempt || !opts.shouldRetry(error, attempt)) throw error;
    ... sleep ...
  }
}
```
is embedded with `fn` as a function from the attempt index to an outcome
(each physical invocation may succeed or fail differently), state-free
since the claims concern call counts and results.  `remaining` counts the
attempts still allowed after the current one, so `remaining = 0` is the
source's `attempt === opts.maxRetries`.  The second component of the
result is the number of times `fn` was invoked. -/

def withRetryRun {E T : Type} (fn : Nat → Except E T) (shouldRetry : E → Nat → Bool) :
    (attempt : Nat) → (remaining : Nat) → Except E T × Nat
  | attempt, remaining =>
    match fn attempt with
    | .ok v => (.ok v, 1)
    | .error e =>
      match remaining with
      | 0 => (.error e, 1)
      | r + 1 =>
        if shouldRetry e attempt then
          let rest := withRetryRun fn shouldRetry (attempt + 1) r
          (rest.1, rest.2 + 1)
        else (.error e, 1)

/-- `withRetry fn maxRetries shouldRetry`: the loop entered at `attempt = 0`
with `maxRetries` further attempts allowed. -/
def withRetry {E T : Type} (fn : Nat → Except E T) (maxRetries : Nat)
    (shouldRetry : E → Nat → Bool) : Except E T × Nat :=
  withRetryRun fn shouldRetry 0 maxRetries

/-! ## Account-identifier normalization (src/utils/validation.ts, src/client.ts)

`accountId.toLowerCase().replace(/_/g, '-')`: lowercase the string, then
replace every underscore with a hyphen.  The global single-character regex
replace is a character-wise map. -/

def underscoreToHyphen (c : Char) : Char := if c = '_' then '-' else c

/-- `normalizeAccountId` from src/utils/validation.ts. -/
def normalizeAccountId (s : String) : String :=
  String.mk ((s.data.map Char.toLower).map underscoreToHyphen)

/-- `buildSuiteTalkUrl` from src/utils/validation.ts. -/
def buildSuiteTalkUrl (accountId : String) : String :=
  "https://" ++ normalizeAccountId accountId ++ ".suitetalk.api.netsuite.com"

/-- `buildRestletUrl` from src/utils/validation.ts. -/
def buildRestletUrl (accountId : String) : String :=
  "https://" ++ normalizeAccountId accountId ++ ".restlets.api.netsuite.com"

/-- The SuiteQL base URL built inline by the `SuiteQLClient` constructor:
`https://${accountId.toLowerCase().replace(/_/g, '-')}.suitetalk.api.netsuite.com/services/rest/query/v1/suiteql`
(the constructor duplicates the normalization logic rather than calling
`normalizeAccountId`). -/
def suiteQLBaseUrl (accountId : String) : String :=
  "https://" ++ String.mk ((accountId.data.map Char.toLower).map underscoreToHyphen) ++
    ".suitetalk.api.netsuite.com/services/rest/query/v1/suiteql"

/-! ## Structured errors (src/types/errors.ts, `NetSuiteError`) -/

inductive HttpMethod
  | GET
  | POST
  | PUT
  | PATCH
  | DELETE
deriving DecidableEq, BEq

/-- The fields of a NetSuite error-response body that the transport's
classification reads (`detail`, `title`, `message`, `o:errorCode`, `code`);
`none` models an absent (undefined) field. -/
structure ErrorBody where
  detail : Option String
  title : Option String
  message : Option String
  oErrorCode : Option String
  code : Option String
deriving DecidableEq

/-- `NetSuiteError` (src/types/errors.ts): message, status, code, optional
raw details, request url and method. -/
structure NetSuiteErr where
  message : String
  status : Nat
  code : String
  details : Option ErrorBody
  requestUrl : Option String
  requestMethod : Option HttpMethod
deriving DecidableEq

/-- `NetSuiteError.isRetryable`:
`status >= 500 || code === 'TIMEOUT' || code === 'NETWORK_ERROR'`. -/
def NetSuiteErr.isRetryable (e : NetSuiteErr) : Bool :=
  decide (500 ≤ e.status) || e.code == "TIMEOUT" || e.code == "NETWORK_ERROR"

/-- `NetSuiteError.isAuthError`: `status === 401 || status === 403`. -/
def NetSuiteErr.isAuthError (e : NetSuiteErr) : Bool :=
  e.status == 401 || e.status == 403

/-- The error construction for a `status >= 400` response in
`HttpTransport.executeRequest`:
message = `errorBody.detail ?? errorBody.title ?? errorBody.message ?? 'HTTP <status>'`,
code = `errorBody['o:errorCode'] ?? errorBody.code ?? 'HTTP_<status>'`,
with `errorBody = response.data ?? {}`. -/
def classifyError (status : Nat) (body : Option ErrorBody) (url : String)
    (method : HttpMethod) : NetSuiteErr :=
  let eb := body.getD ⟨none, none, none, none, none⟩
  { message := eb.detail.getD (eb.title.getD (eb.message.getD ("HTTP " ++ toString status)))
    status := status
    code := eb.oErrorCode.getD (eb.code.getD ("HTTP_" ++ toString status))
    details := some eb
    requestUrl := some url
    requestMethod := some method }

/-- An error reaching the retry predicate: either a `NetSuiteError` or any
other thrown value. -/
inductive TransportError
  | netsuite (e : NetSuiteErr)
  | other
deriving DecidableEq

/-- The transport's default retry predicate (src/transport/http-transport.ts):
`error instanceof NetSuiteError ? error.isRetryable : true`. -/
def transportShouldRetry : TransportError → Bool
  | .netsuite e => e.isRetryable
  | .other => true

/-! ## Request body attachment (src/transport/http-transport.ts, `executeRequest`)

`data: context.body && ['POST', 'PUT', 'PATCH'].includes(context.method)
        ? context.body : undefined` -/

/-- A JavaScript value in body position, with JS truthiness. `obj` stands for
any non-null object or array (always truthy). -/
inductive JsBody
  | undefined
  | null
  | boolean (b : Bool)
  | num (q : ℚ)
  | str (s : String)
  | obj
deriving DecidableEq

def jsTruthy : JsBody → Bool
  | .undefined => false
  | .null => false
  | .boolean b => b
  | .num q => decide (q ≠ 0)
  | .str s => decide (s ≠ "")
  | .obj => true

def isWriteMethod (m : HttpMethod) : Bool :=
  [HttpMethod.POST, HttpMethod.PUT, HttpMethod.PATCH].contains m

/-- The `data` value handed to the HTTP library: the supplied body when it is
truthy and the method is POST/PUT/PATCH, else `undefined`. -/
def attachedBody (body : JsBody) (method : HttpMethod) : JsBody :=
  if jsTruthy body && isWriteMethod method then body else .undefined

/-! ## Middleware chain executor (src/transport/middleware-chain.ts)

A middleware receives the shared mutable state (headers, metadata, logs —
abstracted as a state type `σ`) and a `next` continuation, and returns a
response together with the updated state.  The source dispatches the next
middleware through a closure over an advancing index; the structural
recursion below hands each middleware the composed chain of the remaining
middlewares, which performs the same calls in the same order. -/

def Middleware (σ ρ : Type) : Type := (σ → ρ × σ) → σ → ρ × σ

/-- `executeMiddlewareChain`: run each middleware in order around the final
handler; with no middlewares, run the final handler directly. -/
def executeMiddlewareChain {σ ρ : Type} (middlewares : List (Middleware σ ρ))
    (finalHandler : σ → ρ × σ) : σ → ρ × σ :=
  match middlewares with
  | [] => finalHandler
  | mw :: rest => mw (executeMiddlewareChain rest finalHandler)

/-- Observable events for the middleware-ordering property. -/
inductive ChainEvent
  | enterA
  | enterB
  | runH
  | exitB
  | exitA
deriving DecidableEq

/-- Middleware A: log entry, proceed, log exit. -/
def mwA {ρ : Type} : Middleware (List ChainEvent) ρ := fun next st =>
  let out := next (st ++ [ChainEvent.enterA])
  (out.1, out.2 ++ [ChainEvent.exitA])

/-- Middleware B: log entry, proceed, log exit. -/
def mwB {ρ : Type} : Middleware (List ChainEvent) ρ := fun next st =>
  let out := next (st ++ [ChainEvent.enterB])
  (out.1, out.2 ++ [ChainEvent.exitB])

/-- Terminal handler: log its run and produce the response `r`. -/
def handlerH {ρ : Type} (r : ρ) : List ChainEvent → ρ × List ChainEvent :=
  fun st => (r, st ++ [ChainEvent.runH])

/-! ## Backoff delay and jitter (src/transport/retry.ts, lines 47-53)

```
const delay = Math.min(opts.initialDelay * Math.pow(opts.backoffFactor, attempt), opts.maxDelay);
const jitter = delay * 0.25 * (Math.random() * 2 - 1);
await new Promise((resolve) => setTimeout(resolve, delay + jitter));
```
The numeric semantics is embedded over `ℚ`, with `u` standing for the
`Math.random()` draw in `[0, 1)`. -/

def preJitterDelay (initialDelay maxDelay backoffFactor : ℚ) (attempt : Nat) : ℚ :=
  min (initialDelay * backoffFactor ^ attempt) maxDelay

def jitterTerm (initialDelay maxDelay backoffFactor : ℚ) (attempt : Nat) (u : ℚ) : ℚ :=
  preJitterDelay initialDelay maxDelay backoffFactor attempt * (1 / 4) * (u * 2 - 1)

/-- The duration handed to `setTimeout`: `delay + jitter`. -/
def sleptDelay (initialDelay maxDelay backoffFactor : ℚ) (attempt : Nat) (u : ℚ) : ℚ :=
  preJitterDelay initialDelay maxDelay backoffFactor attempt +
    jitterTerm initialDelay maxDelay backoffFactor attempt u

/-! ## Per-attempt re-signing (src/transport/http-transport.ts, `request`;
src/transport/oauth.ts, `createOAuthSigner`) -/

/-- The signer's internal freshness source.  Modelled from the spec: the
oauth-1.0a library backing `createOAuthSigner` is not part of this
repository; its documented behavior (oauth.ts: "Each invocation generates a
fresh nonce and timestamp"; spec: a monotonically-unique nonce, never reused)
is modelled as a counter advanced on every sign call. -/
structure SignerState where
  counter : Nat
deriving DecidableEq

/-- The authorization header set produced by one sign call: the fresh nonce
and the url/method the signature covers. -/
structure AuthHeaders where
  nonce : Nat
  signedUrl : String
  signedMethod : HttpMethod
deriving DecidableEq

/-- One invocation of the signing closure returned by `createOAuthSigner`:
produce headers for the given url/method carrying a fresh nonce, advancing
the freshness source. -/
def oauthSign (url : String) (method : HttpMethod) (s : SignerState) :
    AuthHeaders × SignerState :=
  (⟨s.counter, url, method⟩, ⟨s.counter + 1⟩)

/-- The retrying request of `HttpTransport.request`: `withRetry` around an
attempt closure that first re-signs (`const authHeaders = this.sign(url,
method)`) and then performs the network call with those headers.  `net`
gives the network outcome of attempt `k` when sent with given headers; the
second component of the result is the trace of authorization header sets
passed to the network call, one per physical attempt, in order. -/
def requestRetryRun {E ρ : Type} (url : String) (method : HttpMethod)
    (net : Nat → AuthHeaders → Except E ρ) (p : E → Nat → Bool) :
    (s : SignerState) → (attempt : Nat) → (remaining : Nat) →
      Except E ρ × List AuthHeaders
  | s, attempt, remaining =>
    let signed := oauthSign url method s
    match net attempt signed.1 with
    | .ok v => (.ok v, [signed.1])
    | .error e =>
      match remaining with
      | 0 => (.error e, [signed.1])
      | r + 1 =>
        if p e attempt then
          let rest := requestRetryRun url method net p signed.2 (attempt + 1) r
          (rest.1, signed.1 :: rest.2)
        else (.error e, [signed.1])

/-- `HttpTransport.request` entered at attempt 0 with `maxRetries` retries
allowed. -/
def transportRequest {E ρ : Type} (url : String) (method : HttpMethod)
    (net : Nat → AuthHeaders → Except E ρ) (p : E → Nat → Bool)
    (maxRetries : Nat) (s0 : SignerState) : Except E ρ × List AuthHeaders :=
  requestRetryRun url method net p s0 0 maxRetries

/-! ## SuiteQL pagination (src/suiteql/suiteql-client.ts, `SuiteQLClient.query`)

```
const { pageSize = 1000, offset: startOffset = 0, maxRows = Infinity, timeout } = options;
const allItems: T[] = [];
let currentOffset = startOffset;
let totalResults = 0;
let pagesFetched = 0;
while (true) {
  const effectiveLimit = Math.min(pageSize, maxRows - allItems.length);
  if (effectiveLimit <= 0) break;
  ... POST { q: sql } with Prefer: transient to `?limit=&offset=` ...
  totalResults = page.totalResults; pagesFetched++;
  allItems.push(...page.items);
  const hasMore = page.hasMore || currentOffset + page.items.length < totalResults;
  if (!hasMore || allItems.length >= maxRows || page.items.length === 0) break;
  currentOffset += page.items.length;
}
return { items, totalResults, pagesFetched, hasMore: allItems.length < totalResults, duration };
```
`maxRows : Option Int` models the JS number that defaults to `Infinity`
(`none`); the server is a function from the `limit`/`offset` pair of a page
request to the page envelope it returns; `fuel` bounds the number of loop
iterations that reach the network (the run result is `none` when the loop
would go on past the fuel).  `duration` (wall-clock time) is not modelled.
The first component of the result is the trace of page requests sent, each
recording the limit and offset sent, the accumulated row count at send
time, and the page received. -/

/-- The SuiteQL response envelope `{ items, totalResults, hasMore, offset }`. -/
structure SQPage (T : Type) where
  items : List T
  totalResults : Int
  hasMore : Bool
deriving DecidableEq

/-- One page request issued by the loop. -/
structure FetchRecord (T : Type) where
  limit : Int
  offset : Int
  rowsBefore : Nat
  page : SQPage T
deriving DecidableEq

/-- The materialized query result (minus `duration`). -/
structure SQResult (T : Type) where
  items : List T
  totalResults : Int
  pagesFetched : Nat
  hasMore : Bool
deriving DecidableEq

/-- `Math.min(pageSize, maxRows - allItems.length)`; with `maxRows = Infinity`
(`none`) the minimum is `pageSize`. -/
def effectiveLimit (pageSize : Int) (maxRows : Option Int) (rows : Nat) : Int :=
  match maxRows with
  | none => pageSize
  | some m => min pageSize (m - rows)

/-- `allItems.length >= maxRows`; false when `maxRows = Infinity`. -/
def reachedMaxRows (maxRows : Option Int) (rows : Nat) : Bool :=
  match maxRows with
  | none => false
  | some m => decide (m ≤ (rows : Int))

def queryLoop {T : Type} (server : Int → Int → SQPage T) (pageSize : Int)
    (maxRows : Option Int) :
    (currentOffset : Int) → (acc : List T) → (totalResults : Int) →
    (pages : Nat) → (fuel : Nat) → List (FetchRecord T) × Option (SQResult T)
  | off, acc, total, pages, fuel =>
    let lim := effectiveLimit pageSize maxRows acc.length
    if lim ≤ 0 then
      ([], some ⟨acc, total, pages, decide ((acc.length : Int) < total)⟩)
    else
      match fuel with
      | 0 => ([], none)
      | f + 1 =>
        let page := server lim off
        let acc2 := acc ++ page.items
        let more := page.hasMore || decide (off + (page.items.length : Int) < page.totalResults)
        if !more || reachedMaxRows maxRows acc2.length || page.items.isEmpty then
          ([⟨lim, off, acc.length, page⟩],
            some ⟨acc2, page.totalResults, pages + 1,
              decide ((acc2.length : Int) < page.totalResults)⟩)
        else
          let rest := queryLoop server pageSize maxRows (off + page.items.length)
            acc2 page.totalResults (pages + 1) f
          (⟨lim, off, acc.length, page⟩ :: rest.1, rest.2)

/-- `SuiteQLClient.query`: the loop entered with an empty accumulator,
`totalResults = 0` and `pagesFetched = 0` at the starting offset. -/
def query {T : Type} (server : Int → Int → SQPage T) (pageSize : Int)
    (startOffset : Int) (maxRows : Option Int) (fuel : Nat) :
    List (FetchRecord T) × Option (SQResult T) :=
  queryLoop server pageSize maxRows startOffset [] 0 0 fuel

/-- A two-page server for concrete pagination runs: offset 0 yields 2 rows
of 4 with `hasMore = true`; any other offset yields 2 rows with
`hasMore = false`. -/
def twoPageServer : Int → Int → SQPage Unit :=
  fun _ off => if off = 0 then ⟨[(), ()], 4, true⟩ else ⟨[(), ()], 4, false⟩

/-- The first page request of the `twoPageServer` run. -/
def pageTraceFirst : FetchRecord Unit := ⟨2, 0, 0, ⟨[(), ()], 4, true⟩⟩

/-- The second (final) page request of the `twoPageServer` run. -/
def pageTraceSecond : FetchRecord Unit := ⟨2, 2, 2, ⟨[(), ()], 4, false⟩⟩

lemma withRetryRun_count_le {E T : Type} (fn : Nat → Except E T)
    (p : E → Nat → Bool) :
    ∀ remaining attempt, (withRetryRun fn p attempt remaining).2 ≤ remaining + 1 := by
  intro remaining
  induction remaining with
  | zero =>
    intro attempt
    unfold withRetryRun
    cases fn attempt <;> simp
  | succ r ih =>
    intro attempt
    unfold withRetryRun
    cases fn attempt with
    | ok v => simp
    | error e =>
      by_cases hp : p e attempt
      · simp only [hp, if_true]
        have := ih (attempt + 1)
        omega
      · simp [hp]

lemma withRetryRun_count_allfail {E T : Type} (fn : Nat → Except E T)
    (p : E → Nat → Bool)
    (hfail : ∀ k, ∃ e, fn k = .error e)
    (hretry : ∀ e k, p e k = true) :
    ∀ remaining attempt, (withRetryRun fn p attempt remaining).2 = remaining + 1 := by
  intro remaining
  induction remaining with
  | zero =>
    intro attempt
    obtain ⟨e, he⟩ := hfail attempt
    unfold withRetryRun
    rw [he]
  | succ r ih =>
    intro attempt
    obtain ⟨e, he⟩ := hfail attempt
    unfold withRetryRun
    rw [he]
    simp only [hretry e attempt, if_true]
    rw [ih (attempt + 1)]

lemma withRetryRun_first_success {E T : Type} (fn : Nat → Except E T)
    (p : E → Nat → Bool) :
    ∀ remaining attempt k v, attempt ≤ k → k ≤ attempt + remaining →
      (∀ j, attempt ≤ j → j < k → ∃ e, fn j = .error e ∧ p e j = true) →
      fn k = .ok v →
      withRetryRun fn p attempt remaining = (.ok v, k - attempt + 1) := by
  intro remaining
  induction remaining with
  | zero =>
    intro attempt k v hak hka hprev hok
    have hk : k = attempt := by omega
    subst hk
    unfold withRetryRun
    rw [hok]
    simp
  | succ r ih =>
    intro attempt k v hak hka hprev hok
    by_cases hk : k = attempt
    · subst hk
      unfold withRetryRun
      rw [hok]
      simp
    · obtain ⟨e, he, hpe⟩ := hprev attempt le_rfl (by omega)
      unfold withRetryRun
      rw [he]
      simp only [hpe, if_true]
      have hrec := ih (attempt + 1) k v (by omega) (by omega)
        (fun j h1 h2 => hprev j (by omega) h2) hok
      rw [hrec]
      have : k - (attempt + 1) + 1 + 1 = k - attempt + 1 := by omega
      simp [this]

/-- C1: For every `maxRetries = N ≥ 0`, `withRetry` invokes the wrapped
operation at most `N + 1` times; it invokes it exactly `N + 1` times when
every invocation fails and the retryability predicate accepts every
failure; and it returns immediately after the first successful invocation
with that invocation's result. -/
theorem withRetry_bound {E T : Type} (fn : Nat → Except E T) (N : Nat)
    (p : E → Nat → Bool) :
    (withRetry fn N p).2 ≤ N + 1 ∧
    ((∀ k, ∃ e, fn k = .error e) → (∀ e k, p e k = true) →
      (withRetry fn N p).2 = N + 1) ∧
    (∀ k v, k ≤ N → fn k = .ok v →
      (∀ j, j < k → ∃ e, fn j = .error e ∧ p e j = true) →
      withRetry fn N p = (.ok v, k + 1)) := by
  refine ⟨withRetryRun_count_le fn p N 0, fun hfail hretry => ?_, fun k v hk hok hprev => ?_⟩
  · exact withRetryRun_count_allfail fn p hfail hretry N 0
  · have := withRetryRun_first_success fn p N 0 k v (Nat.zero_le k) (by omega)
      (fun j _ hj => hprev j hj) hok
    simpa using this

/-- C1 witness: a concrete run. With an operation failing on attempts 0 and 1
and succeeding on attempt 2, `maxRetries = 5` and an always-true predicate,
the operation is invoked exactly 3 times and the result is the success value. -/
theorem withRetry_bound_witness :
    withRetry (fun k => if k < 2 then Except.error 0 else Except.ok 7) 5
        (fun _ _ => true) = (.ok 7, 3) ∧
    (withRetry (fun _ => (Except.error 0 : Except Nat Nat)) 5 (fun _ _ => true)).2 = 6 := by
  constructor
  · exact (withRetry_bound (fun k => if k < 2 then Except.error 0 else Except.ok 7) 5
      (fun _ _ => true)).2.2 2 7 (by omega) (by simp)
      (fun j hj => ⟨0, by simp [hj], rfl⟩)
  · exact (withRetry_bound (fun _ => (Except.error 0 : Except Nat Nat)) 5
      (fun _ _ => true)).2.1 (fun k => ⟨0, rfl⟩) (fun e k => rfl)

lemma toLower_ofNat_fixed (n : Nat) (h1 : 65 ≤ n) (h2 : n ≤ 90) :
    Char.toLower (Char.ofNat (n + 32)) = Char.ofNat (n + 32) := by
  interval_cases n <;> decide

lemma toLower_idem (c : Char) : c.toLower.toLower = c.toLower := by
  by_cases h : c.toNat ≥ 65 ∧ c.toNat ≤ 90
  · have hc : c.toLower = Char.ofNat (c.toNat + 32) := by
      unfold Char.toLower
      rw [if_pos h]
    rw [hc]
    exact toLower_ofNat_fixed c.toNat h.1 h.2
  · have hc : c.toLower = c := by
      unfold Char.toLower
      rw [if_neg h]
    rw [hc, hc]

lemma normPipeline_idem (c : Char) :
    underscoreToHyphen (Char.toLower (underscoreToHyphen (Char.toLower c))) =
      underscoreToHyphen (Char.toLower c) := by
  by_cases h : c.toLower = '_'
  · have h1 : underscoreToHyphen c.toLower = '-' := by
      unfold underscoreToHyphen
      exact if_pos h
    rw [h1]
    decide
  · have h1 : underscoreToHyphen c.toLower = c.toLower := by
      unfold underscoreToHyphen
      exact if_neg h
    rw [h1, toLower_idem, h1]

/-- C8: account-identifier normalization lowercases and replaces underscores
with hyphens (`"1234567_SB1" ↦ "1234567-sb1"`), is idempotent, and the same
transformation is applied everywhere a host is built, including the SuiteQL
base URL built inline by the `SuiteQLClient` constructor. -/
theorem normalizeAccountId_spec :
    normalizeAccountId "1234567_SB1" = "1234567-sb1" ∧
    (∀ s, normalizeAccountId (normalizeAccountId s) = normalizeAccountId s) ∧
    (∀ s, suiteQLBaseUrl s =
      "https://" ++ normalizeAccountId s ++
        ".suitetalk.api.netsuite.com/services/rest/query/v1/suiteql") ∧
    (∀ s, buildSuiteTalkUrl s = "https://" ++ normalizeAccountId s ++
        ".suitetalk.api.netsuite.com" ∧
      buildRestletUrl s = "https://" ++ normalizeAccountId s ++
        ".restlets.api.netsuite.com") := by
  refine ⟨by decide, fun s => ?_, fun s => rfl, fun s => ⟨rfl, rfl⟩⟩
  unfold normalizeAccountId
  simp only [List.map_map]
  congr 1
  exact List.map_congr_left fun c _ => normPipeline_idem c

lemma withRetry_not_retryable {E T : Type} (fn : Nat → Except E T) (N : Nat)
    (p : E → Nat → Bool) (e : E) (hfn : fn 0 = .error e) (hp : p e 0 = false) :
    withRetry fn N p = (.error e, 1) := by
  unfold withRetry withRetryRun
  rw [hfn]
  cases N with
  | zero => rfl
  | succ n => simp [hp]

/-- C3 counterexample: a 401 response whose body carries
`o:errorCode = "TIMEOUT"` produces an auth-error (`isAuthError = true`,
status 401) that the default predicate DOES retry: with `maxRetries = 3`
and every attempt failing with it, the wrapped operation runs 4 times,
not once. -/
theorem authError_retried_counterexample :
    (classifyError 401 (some ⟨none, none, none, some "TIMEOUT", none⟩) "u"
        HttpMethod.GET).isAuthError = true ∧
    (classifyError 401 (some ⟨none, none, none, some "TIMEOUT", none⟩) "u"
        HttpMethod.GET).status = 401 ∧
    transportShouldRetry (.netsuite (classifyError 401
        (some ⟨none, none, none, some "TIMEOUT", none⟩) "u" HttpMethod.GET)) = true ∧
    (withRetry
        (fun _ => (Except.error (TransportError.netsuite (classifyError 401
          (some ⟨none, none, none, some "TIMEOUT", none⟩) "u" HttpMethod.GET)) :
            Except TransportError Unit))
        3 (fun e _ => transportShouldRetry e)).2 = 4 := by
  refine ⟨rfl, rfl, rfl, ?_⟩
  decide

/-- C3 (amended): an auth-error (status 401/403) whose extracted error code
is neither `"TIMEOUT"` nor `"NETWORK_ERROR"` is never retried by the
default predicate: the wrapped operation is invoked exactly once and the
error propagates to the caller. -/
theorem authError_not_retried (status : Nat) (body : Option ErrorBody)
    (url : String) (method : HttpMethod)
    (hs : status = 401 ∨ status = 403)
    (hc1 : (classifyError status body url method).code ≠ "TIMEOUT")
    (hc2 : (classifyError status body url method).code ≠ "NETWORK_ERROR") :
    (classifyError status body url method).isAuthError = true ∧
    transportShouldRetry (.netsuite (classifyError status body url method)) = false ∧
    ∀ (T : Type) (N : Nat) (fn : Nat → Except TransportError T),
      fn 0 = .error (.netsuite (classifyError status body url method)) →
      withRetry fn N (fun e _ => transportShouldRetry e) =
        (.error (.netsuite (classifyError status body url method)), 1) := by
  have hst : (classifyError status body url method).status = status := rfl
  have hret : transportShouldRetry (.netsuite (classifyError status body url method)) = false := by
    simp only [transportShouldRetry, NetSuiteErr.isRetryable, hst]
    have h500 : ¬ (500 ≤ status) := by omega
    simp [h500, hc1, hc2]
  refine ⟨?_, hret, fun T N fn hfn => ?_⟩
  · simp only [NetSuiteErr.isAuthError, hst]
    rcases hs with h | h <;> simp [h]
  · exact withRetry_not_retryable fn N _ _ hfn hret

/-- C3 witness: a 401 with code `INVALID_LOGIN` is an auth-error, is not
retried, and with a transport operation always failing with it, the
operation runs exactly once and the error propagates. -/
theorem authError_not_retried_witness :
    (classifyError 401 (some ⟨none, some "Unauthorized", none, some "INVALID_LOGIN", none⟩)
        "u" HttpMethod.GET).isAuthError = true ∧
    withRetry
        (fun _ => (Except.error (TransportError.netsuite (classifyError 401
          (some ⟨none, some "Unauthorized", none, some "INVALID_LOGIN", none⟩)
          "u" HttpMethod.GET)) : Except TransportError Unit))
        3 (fun e _ => transportShouldRetry e) =
      (.error (.netsuite (classifyError 401
          (some ⟨none, some "Unauthorized", none, some "INVALID_LOGIN", none⟩)
          "u" HttpMethod.GET)), 1) := by
  refine ⟨?_, ?_⟩
  · exact (authError_not_retried 401
      (some ⟨none, some "Unauthorized", none, some "INVALID_LOGIN", none⟩)
      "u" HttpMethod.GET (Or.inl rfl) (by decide) (by decide)).1
  · exact (authError_not_retried 401
      (some ⟨none, some "Unauthorized", none, some "INVALID_LOGIN", none⟩)
      "u" HttpMethod.GET (Or.inl rfl) (by decide) (by decide)).2.2 Unit 3 _ rfl

/-- C9: a falsy body is never attached (even for POST/PUT/PATCH); a body is
attached exactly when it is truthy and the method is POST, PUT or PATCH, and
then the attached body is the supplied one. -/
theorem attachedBody_spec (b : JsBody) (m : HttpMethod) :
    (jsTruthy b = false → attachedBody b m = JsBody.undefined) ∧
    (attachedBody b m ≠ JsBody.undefined ↔
      (jsTruthy b = true ∧ (m = .POST ∨ m = .PUT ∨ m = .PATCH))) ∧
    (jsTruthy b = true → (m = .POST ∨ m = .PUT ∨ m = .PATCH) →
      attachedBody b m = b) := by
  have hw : isWriteMethod m = true ↔ (m = .POST ∨ m = .PUT ∨ m = .PATCH) := by
    cases m <;> decide
  have hne : jsTruthy b = true → b ≠ JsBody.undefined := by
    intro h hb
    rw [hb] at h
    simp [jsTruthy] at h
  by_cases ht : jsTruthy b = true
  · by_cases hm : isWriteMethod m = true
    · have hab : attachedBody b m = b := by simp [attachedBody, ht, hm]
      refine ⟨fun h => ?_, ⟨fun _ => ⟨ht, hw.mp hm⟩, fun _ => ?_⟩, fun _ _ => hab⟩
      · rw [ht] at h
        cases h
      · rw [hab]
        exact hne ht
    · have hab : attachedBody b m = JsBody.undefined := by
        simp [attachedBody, hm]
      refine ⟨fun _ => hab, ⟨fun h => absurd hab h, fun h => absurd (hw.mpr h.2) hm⟩,
        fun _ hw' => absurd (hw.mpr hw') hm⟩
  · have ht' : jsTruthy b = false := by
      cases h : jsTruthy b
      · rfl
      · exact absurd h ht
    have hab : attachedBody b m = JsBody.undefined := by
      simp [attachedBody, ht']
    exact ⟨fun _ => hab, ⟨fun h => absurd hab h, fun h => absurd h.1 ht⟩,
      fun h1 _ => absurd h1 ht⟩

/-- C9 witness: a POST with empty-string body attaches nothing; a POST with
an object body attaches that body; a GET with an object body attaches
nothing. -/
theorem attachedBody_spec_witness :
    attachedBody (JsBody.str "") HttpMethod.POST = JsBody.undefined ∧
    attachedBody JsBody.obj HttpMethod.POST = JsBody.obj ∧
    attachedBody JsBody.obj HttpMethod.GET = JsBody.undefined := by
  refine ⟨(attachedBody_spec (JsBody.str "") HttpMethod.POST).1 (by decide),
   (attachedBody_spec JsBody.obj HttpMethod.POST).2.2 (by decide) (Or.inl rfl), ?_⟩
  have h := (attachedBody_spec JsBody.obj HttpMethod.GET).2.1
  by_contra hne
  rcases h.mp hne with ⟨_, h2 | h2 | h2⟩ <;> cases h2

/-- C7: with middlewares A then B around terminal handler H, the observed
order is A-enter, B-enter, H, B-exit, A-exit, and H's response comes back
unchanged; with no middlewares the terminal handler runs directly and its
response is returned unchanged. -/
theorem middleware_order {ρ : Type} (r : ρ) :
    executeMiddlewareChain [mwA, mwB] (handlerH r) [] =
      (r, [ChainEvent.enterA, ChainEvent.enterB, ChainEvent.runH,
           ChainEvent.exitB, ChainEvent.exitA]) ∧
    (∀ (σ : Type) (finalHandler : σ → ρ × σ) (st : σ),
      executeMiddlewareChain [] finalHandler st = finalHandler st) :=
  ⟨rfl, fun _ _ _ => rfl⟩

/-- C6 counterexample: with `initialDelay = 1 ≥ 0` and `maxDelay = 1 ≥ 0` but
backoff factor `-1`, attempt index 1 and jitter draw `u = 0`, the pre-jitter
delay is `-1` and the slept duration is `-3/4 < 0`: the claim's conclusion
fails although its stated hypotheses (`d0 ≥ 0`, `dmax ≥ 0`) hold. -/
theorem sleptDelay_negative_counterexample :
    (0 : ℚ) ≤ 1 ∧ (0 : ℚ) ≤ 1 ∧ (0 : ℚ) ≤ 0 ∧ (0 : ℚ) ≤ 1 ∧
    preJitterDelay 1 1 (-1) 1 = -1 ∧
    sleptDelay 1 1 (-1) 1 0 < 0 := by
  norm_num [preJitterDelay, sleptDelay, jitterTerm]

/-- C6 (amended, requiring a nonnegative backoff factor): for every retry
attempt `k` with `d0 ≥ 0`, `dmax ≥ 0`, `b ≥ 0` and jitter draw `u ∈ [0, 1]`,
the pre-jitter delay equals `min(d0 * b^k, dmax)` and the slept duration is
never negative and never exceeds `dmax * 1.25`. -/
theorem sleptDelay_bounds (d0 dmax b u : ℚ) (k : Nat)
    (hd0 : 0 ≤ d0) (hdmax : 0 ≤ dmax) (hb : 0 ≤ b) (hu0 : 0 ≤ u) (hu1 : u ≤ 1) :
    preJitterDelay d0 dmax b k = min (d0 * b ^ k) dmax ∧
    0 ≤ sleptDelay d0 dmax b k u ∧
    sleptDelay d0 dmax b k u ≤ dmax * (5 / 4) := by
  have hD0 : 0 ≤ preJitterDelay d0 dmax b k :=
    le_min (mul_nonneg hd0 (pow_nonneg hb k)) hdmax
  have hDmax : preJitterDelay d0 dmax b k ≤ dmax := min_le_right _ _
  set D := preJitterDelay d0 dmax b k with hD
  have hfac0 : (0 : ℚ) ≤ 1 + (1 / 4) * (u * 2 - 1) := by linarith
  have hfac1 : 1 + (1 / 4 : ℚ) * (u * 2 - 1) ≤ 5 / 4 := by linarith
  have hslept : sleptDelay d0 dmax b k u = D * (1 + (1 / 4) * (u * 2 - 1)) := by
    simp only [sleptDelay, jitterTerm, ← hD]
    ring
  refine ⟨rfl, ?_, ?_⟩
  · rw [hslept]
    exact mul_nonneg hD0 hfac0
  · rw [hslept]
    calc D * (1 + (1 / 4) * (u * 2 - 1)) ≤ dmax * (1 + (1 / 4) * (u * 2 - 1)) :=
          mul_le_mul_of_nonneg_right hDmax hfac0
    _ ≤ dmax * (5 / 4) := mul_le_mul_of_nonneg_left hfac1 hdmax

/-- C6 witness: the default configuration `d0 = 1000`, `dmax = 30000`,
`b = 2` at attempt 0 with jitter draw `u = 1/2`. -/
theorem sleptDelay_bounds_witness :
    preJitterDelay 1000 30000 2 0 = min ((1000 : ℚ) * 2 ^ 0) 30000 ∧
    0 ≤ sleptDelay 1000 30000 2 0 (1 / 2) ∧
    sleptDelay 1000 30000 2 0 (1 / 2) ≤ 30000 * (5 / 4) :=
  sleptDelay_bounds 1000 30000 2 (1 / 2) 0 (by norm_num) (by norm_num)
    (by norm_num) (by norm_num) (by norm_num)

lemma range_one_eq : List.range 1 = [0] := rfl

lemma requestRetryRun_trace_shape {E ρ : Type} (url : String) (method : HttpMethod)
    (net : Nat → AuthHeaders → Except E ρ) (p : E → Nat → Bool) :
    ∀ (remaining attempt : Nat) (s : SignerState), ∃ n, 0 < n ∧
      (requestRetryRun url method net p s attempt remaining).2 =
        (List.range n).map (fun k => ⟨s.counter + k, url, method⟩) := by
  intro remaining
  induction remaining with
  | zero =>
    intro attempt s
    refine ⟨1, Nat.one_pos, ?_⟩
    unfold requestRetryRun
    cases hnet : net attempt ⟨s.counter, url, method⟩ <;> simp [oauthSign, hnet, range_one_eq]
  | succ r ih =>
    intro attempt s
    unfold requestRetryRun
    cases hnet : net attempt ⟨s.counter, url, method⟩ with
    | ok v =>
      refine ⟨1, Nat.one_pos, ?_⟩
      simp [oauthSign, hnet, range_one_eq]
    | error e =>
      by_cases hp : p e attempt
      · obtain ⟨n, hn0, hn⟩ := ih (attempt + 1) ⟨s.counter + 1⟩
        refine ⟨n + 1, Nat.succ_pos n, ?_⟩
        simp only [oauthSign, hnet, hp, if_true]
        rw [hn, List.range_succ_eq_map, List.map_cons, List.map_map]
        refine congrArg₂ List.cons (by simp) ?_
        refine List.map_congr_left fun k _ => ?_
        simp only [Function.comp_apply]
        congr 1
        omega
      · refine ⟨1, Nat.one_pos, ?_⟩
        simp [oauthSign, hnet, hp, range_one_eq]

/-- C2: every physical attempt of a logical request carries authorization
headers produced by a fresh Signer invocation with the current url and
method, made for that attempt: the `i`-th attempt's headers carry the `i`-th
fresh nonce after the starting signer state, so nonces are pairwise distinct
across attempts and never reused. -/
theorem transport_fresh_sign_per_attempt {E ρ : Type} (url : String)
    (method : HttpMethod) (net : Nat → AuthHeaders → Except E ρ)
    (p : E → Nat → Bool) (maxRetries : Nat) (s0 : SignerState) :
    (∀ (i : Nat)
      (h : i < (transportRequest url method net p maxRetries s0).2.length),
      (transportRequest url method net p maxRetries s0).2.get ⟨i, h⟩ =
        ⟨s0.counter + i, url, method⟩) ∧
    (transportRequest url method net p maxRetries s0).2.Pairwise
      (fun a b => a.nonce ≠ b.nonce) := by
  obtain ⟨n, hn0, hshape⟩ :=
    requestRetryRun_trace_shape url method net p maxRetries 0 s0
  have hget : ∀ (i : Nat)
      (h : i < (transportRequest url method net p maxRetries s0).2.length),
      (transportRequest url method net p maxRetries s0).2.get ⟨i, h⟩ =
        ⟨s0.counter + i, url, method⟩ := by
    intro i h
    have h' : i < (requestRetryRun url method net p s0 0 maxRetries).2.length := h
    have hc := List.get_of_eq hshape ⟨i, h'⟩
    show (requestRetryRun url method net p s0 0 maxRetries).2.get ⟨i, h'⟩ = _
    rw [hc]
    simp [List.get_eq_getElem, List.getElem_map, List.getElem_range]
  refine ⟨hget, ?_⟩
  rw [List.pairwise_iff_get]
  intro i j hij
  have h1 : (transportRequest url method net p maxRetries s0).2.get i =
      ⟨s0.counter + i.1, url, method⟩ := hget i.1 i.2
  have h2 : (transportRequest url method net p maxRetries s0).2.get j =
      ⟨s0.counter + j.1, url, method⟩ := hget j.1 j.2
  rw [h1, h2]
  simp only [ne_eq]
  omega

/-- C2 witness: a request failing on attempts 0 and 1 and succeeding on
attempt 2, with an always-retry predicate and `maxRetries = 3`, performs 3
physical attempts whose headers carry nonces 0, 1, 2; the second attempt's
headers were signed fresh (nonce 1) for the current url and method. -/
theorem transport_fresh_sign_witness :
    (transportRequest "https://acct.suitetalk.api.netsuite.com/x" HttpMethod.GET
        (fun k _ => if k < 2 then Except.error () else Except.ok ())
        (fun _ _ => true) 3 ⟨0⟩).2.get ⟨1, by decide⟩ =
      ⟨1, "https://acct.suitetalk.api.netsuite.com/x", HttpMethod.GET⟩ ∧
    (transportRequest "https://acct.suitetalk.api.netsuite.com/x" HttpMethod.GET
        (fun k _ => if k < 2 then Except.error () else Except.ok ())
        (fun _ _ => true) 3 ⟨0⟩).2.Pairwise (fun a b => a.nonce ≠ b.nonce) :=
  ⟨(transport_fresh_sign_per_attempt "https://acct.suitetalk.api.netsuite.com/x"
      HttpMethod.GET (fun k _ => if k < 2 then Except.error () else Except.ok ())
      (fun _ _ => true) 3 ⟨0⟩).1 1 (by decide),
   (transport_fresh_sign_per_attempt "https://acct.suitetalk.api.netsuite.com/x"
      HttpMethod.GET (fun k _ => if k < 2 then Except.error () else Except.ok ())
      (fun _ _ => true) 3 ⟨0⟩).2⟩

lemma effectiveLimit_le_pageSize (pageSize : Int) (maxRows : Option Int) (rows : Nat) :
    effectiveLimit pageSize maxRows rows ≤ pageSize := by
  cases maxRows with
  | none => exact le_refl _
  | some m => exact min_le_left _ _

lemma bool_false_of_not_true {b : Bool} (h : (!b) = true) : b = false := by
  cases b
  · rfl
  · cases h

lemma bool_true_of_not_false {b : Bool} (h : (!b) = false) : b = true := by
  cases b
  · cases h
  · rfl

lemma queryLoop_mem_trace {T : Type} (server : Int → Int → SQPage T)
    (pageSize : Int) (maxRows : Option Int) :
    ∀ (fuel : Nat) (off : Int) (acc : List T) (total : Int) (pages : Nat),
      ∀ r ∈ (queryLoop server pageSize maxRows off acc total pages fuel).1,
        r.limit = effectiveLimit pageSize maxRows r.rowsBefore ∧
        0 < r.limit ∧ r.page = server r.limit r.offset := by
  intro fuel
  induction fuel with
  | zero =>
    intro off acc total pages r hr
    unfold queryLoop at hr
    by_cases hlim : effectiveLimit pageSize maxRows acc.length ≤ 0 <;>
      simp [hlim] at hr
  | succ f ih =>
    intro off acc total pages r hr
    unfold queryLoop at hr
    by_cases hlim : effectiveLimit pageSize maxRows acc.length ≤ 0
    · simp [hlim] at hr
    · simp only [hlim, if_false] at hr
      split at hr
      · simp only [List.mem_singleton] at hr
        subst hr
        refine ⟨rfl, ?_, rfl⟩
        show (0 : Int) < effectiveLimit pageSize maxRows acc.length
        omega
      · simp only [List.mem_cons] at hr
        cases hr with
        | inl hr =>
          subst hr
          refine ⟨rfl, ?_, rfl⟩
          show (0 : Int) < effectiveLimit pageSize maxRows acc.length
          omega
        | inr hr =>
          exact ih _ _ _ _ r hr

lemma queryLoop_empty_trace_some {T : Type} (server : Int → Int → SQPage T)
    (pageSize : Int) (maxRows : Option Int) :
    ∀ (fuel : Nat) (off : Int) (acc : List T) (total : Int) (pages : Nat),
      (queryLoop server pageSize maxRows off acc total pages fuel).1 = [] →
      (queryLoop server pageSize maxRows off acc total pages fuel).2.isSome = true →
      effectiveLimit pageSize maxRows acc.length ≤ 0 := by
  intro fuel off acc total pages htr hsome
  by_cases hlim : effectiveLimit pageSize maxRows acc.length ≤ 0
  · exact hlim
  exfalso
  cases fuel with
  | zero =>
    unfold queryLoop at hsome
    simp [hlim] at hsome
  | succ f =>
    unfold queryLoop at htr
    simp only [hlim, if_false] at htr
    split at htr
    · simp at htr
    · simp at htr

lemma queryLoop_last_stop {T : Type} (server : Int → Int → SQPage T)
    (pageSize : Int) (maxRows : Option Int) :
    ∀ (fuel : Nat) (off : Int) (acc : List T) (total : Int) (pages : Nat)
      (r : FetchRecord T) (res : SQResult T),
      (queryLoop server pageSize maxRows off acc total pages fuel).2 = some res →
      (queryLoop server pageSize maxRows off acc total pages fuel).1.getLast? = some r →
      ((r.page.hasMore = false ∧
          ¬ (r.offset + (r.page.items.length : Int) < r.page.totalResults)) ∨
        reachedMaxRows maxRows (r.rowsBefore + r.page.items.length) = true ∨
        r.page.items = [] ∨
        effectiveLimit pageSize maxRows (r.rowsBefore + r.page.items.length) ≤ 0) := by
  intro fuel
  induction fuel with
  | zero =>
    intro off acc total pages r res hres hlast
    unfold queryLoop at hres hlast
    by_cases hlim : effectiveLimit pageSize maxRows acc.length ≤ 0
    · simp [hlim] at hlast
    · simp [hlim] at hres
  | succ f ih =>
    intro off acc total pages r res hres hlast
    unfold queryLoop at hres hlast
    by_cases hlim : effectiveLimit pageSize maxRows acc.length ≤ 0
    · simp [hlim] at hlast
    · simp only [hlim, if_false] at hres hlast
      split at hres
      · next hstop =>
        split at hlast
        · next h2 =>
          simp only [List.getLast?_singleton, Option.some_inj] at hlast
          subst hlast
          have hlenapp : (acc ++ (server (effectiveLimit pageSize maxRows acc.length) off).items).length =
              acc.length + (server (effectiveLimit pageSize maxRows acc.length) off).items.length :=
            List.length_append acc _
          rcases (Bool.or_eq_true _ _).mp hstop with hs | hs
          · rcases (Bool.or_eq_true _ _).mp hs with hs2 | hs2
            · left
              have hmf := bool_false_of_not_true hs2
              rw [Bool.or_eq_false_iff] at hmf
              exact ⟨hmf.1, of_decide_eq_false hmf.2⟩
            · right
              left
              show reachedMaxRows maxRows (acc.length +
                (server (effectiveLimit pageSize maxRows acc.length) off).items.length) = true
              rw [← hlenapp]
              exact hs2
          · right
            right
            left
            exact List.isEmpty_iff.mp hs
        · next h2 => exact absurd hstop h2
      · next hstop =>
        split at hlast
        · next h2 => exact absurd h2 hstop
        · next h2 =>
          cases htail : (queryLoop server pageSize maxRows
              (off + ((server (effectiveLimit pageSize maxRows acc.length) off).items.length : Int))
              (acc ++ (server (effectiveLimit pageSize maxRows acc.length) off).items)
              (server (effectiveLimit pageSize maxRows acc.length) off).totalResults
              (pages + 1) f).1 with
          | nil =>
            rw [htail] at hlast
            simp only [List.getLast?_singleton, Option.some_inj] at hlast
            subst hlast
            right
            right
            right
            have hlim2 := queryLoop_empty_trace_some server pageSize maxRows f
              (off + ((server (effectiveLimit pageSize maxRows acc.length) off).items.length : Int))
              (acc ++ (server (effectiveLimit pageSize maxRows acc.length) off).items)
              (server (effectiveLimit pageSize maxRows acc.length) off).totalResults
              (pages + 1) htail (by rw [hres]; rfl)
            rw [List.length_append] at hlim2
            exact hlim2
          | cons x xs =>
            rw [htail] at hlast
            rw [List.getLast?_cons_cons] at hlast
            have := ih _ _ _ _ r res hres (by rw [htail]; exact hlast)
            exact this

/-- C4 counterexample: with caller-supplied `pageSize = 2000` (and unbounded
`maxRows`), the single page request of this run is sent with
`limit = 2000 > 1000`: the client does not cap the limit at 1000. -/
theorem query_limit_cap_counterexample :
    ((query (fun _ _ => (⟨[], 0, false⟩ : SQPage Unit)) 2000 0 none 1).1.map
      FetchRecord.limit) = [2000] ∧ ¬ ((2000 : Int) ≤ 1000) := by
  constructor
  · rfl
  · decide

/-- C4 (amended): the limit sent to the server in each page request equals
`min(pageSize, maxRows - rowsSoFar)` and never exceeds the caller-supplied
`pageSize`; whenever `pageSize ≤ 1000` — in particular at the default
`pageSize = 1000` — no request's limit exceeds 1000.  A caller-supplied
`pageSize` larger than 1000 is sent as-is (see the counterexample). -/
theorem query_limit_le_pageSize {T : Type} (server : Int → Int → SQPage T)
    (pageSize startOffset : Int) (maxRows : Option Int) (fuel : Nat) :
    ∀ r ∈ (query server pageSize startOffset maxRows fuel).1,
      r.limit = effectiveLimit pageSize maxRows r.rowsBefore ∧
      r.limit ≤ pageSize ∧
      (pageSize ≤ 1000 → r.limit ≤ 1000) := by
  intro r hr
  obtain ⟨h1, h2, h3⟩ :=
    queryLoop_mem_trace server pageSize maxRows fuel startOffset [] 0 0 r hr
  have hle : r.limit ≤ pageSize := by
    rw [h1]
    exact effectiveLimit_le_pageSize pageSize maxRows r.rowsBefore
  exact ⟨h1, hle, fun hps => le_trans hle hps⟩

/-- C4 witness: a default-`pageSize` (1000) run; its page request's limit is
at most 1000. -/
theorem query_limit_le_pageSize_witness :
    (⟨1000, 0, 0, ⟨[(), ()], 2, false⟩⟩ : FetchRecord Unit).limit ≤ 1000 :=
  ((query_limit_le_pageSize (fun _ _ => (⟨[(), ()], 2, false⟩ : SQPage Unit))
    1000 0 none 1) ⟨1000, 0, 0, ⟨[(), ()], 2, false⟩⟩ (by decide)).2.2 (by norm_num)

/-- C10: a materializing `query()` with `maxRows ≤ 0` issues no request at
all and returns empty items, `totalResults = 0`, `pagesFetched = 0` and
`hasMore = false`. -/
theorem query_maxRows_nonpos {T : Type} (server : Int → Int → SQPage T)
    (pageSize startOffset : Int) (m : Int) (fuel : Nat) (hm : m ≤ 0) :
    query server pageSize startOffset (some m) fuel =
      ([], some ⟨[], 0, 0, false⟩) := by
  unfold query queryLoop
  have hlim : effectiveLimit pageSize (some m) ([] : List T).length ≤ 0 := by
    simp only [effectiveLimit, List.length_nil]
    refine le_trans (min_le_right _ _) ?_
    push_cast
    omega
  rw [if_pos hlim]
  simp

/-- C10 witness: `maxRows = 0` against a server that would return rows. -/
theorem query_maxRows_nonpos_witness :
    query (fun _ _ => (⟨[()], 1, true⟩ : SQPage Unit)) 1000 0 (some 0) 5 =
      ([], some ⟨[], 0, 0, false⟩) :=
  query_maxRows_nonpos (fun _ _ => (⟨[()], 1, true⟩ : SQPage Unit)) 1000 0 0 5 le_rfl

lemma queryLoop_get_continue {T : Type} (server : Int → Int → SQPage T)
    (pageSize : Int) (maxRows : Option Int) :
    ∀ (fuel : Nat) (off : Int) (acc : List T) (total : Int) (pages : Nat)
      (i : Nat) (r : FetchRecord T),
      (queryLoop server pageSize maxRows off acc total pages fuel).1.get? i = some r →
      i + 1 < (queryLoop server pageSize maxRows off acc total pages fuel).1.length →
      r.page.items ≠ [] ∧
      reachedMaxRows maxRows (r.rowsBefore + r.page.items.length) = false ∧
      (r.page.hasMore = true ∨
        r.offset + (r.page.items.length : Int) < r.page.totalResults) := by
  intro fuel
  induction fuel with
  | zero =>
    intro off acc total pages i r hget hlen
    unfold queryLoop at hget
    by_cases hlim : effectiveLimit pageSize maxRows acc.length ≤ 0 <;>
      simp [hlim] at hget
  | succ f ih =>
    intro off acc total pages i r hget hlen
    unfold queryLoop at hget hlen
    by_cases hlim : effectiveLimit pageSize maxRows acc.length ≤ 0
    · simp [hlim] at hget
    · simp only [hlim, if_false] at hget hlen
      split at hget
      · next hstop =>
        split at hlen
        · next h2 =>
          simp only [List.length_singleton] at hlen
          omega
        · next h2 => exact absurd hstop h2
      · next hstop =>
        have hc := Bool.eq_false_iff.mpr hstop
        rw [Bool.or_eq_false_iff, Bool.or_eq_false_iff] at hc
        obtain ⟨⟨hmore, hreach⟩, hempty⟩ := hc
        have hmore' := bool_true_of_not_false hmore
        cases i with
        | zero =>
          simp only [List.get?_cons_zero, Option.some_inj] at hget
          subst hget
          refine ⟨?_, ?_, ?_⟩
          · intro hnil
            rw [hnil] at hempty
            cases hempty
          · rw [show (⟨effectiveLimit pageSize maxRows acc.length, off, acc.length,
                server (effectiveLimit pageSize maxRows acc.length) off⟩ :
                  FetchRecord T).rowsBefore +
                (server (effectiveLimit pageSize maxRows acc.length) off).items.length =
                (acc ++ (server (effectiveLimit pageSize maxRows acc.length) off).items).length
              from by simp [List.length_append]]
            exact hreach
          · rcases (Bool.or_eq_true _ _).mp hmore' with hb | hb
            · left
              exact hb
            · right
              exact of_decide_eq_true hb
        | succ j =>
          simp only [List.get?_cons_succ] at hget
          split at hlen
          · next h2 => exact absurd h2 hstop
          · next h2 =>
            simp only [List.length_cons] at hlen
            exact ih _ _ _ _ j r hget (by omega)

/-- C5: the materializing `query()` never sends a request once
`min(pageSize, maxRows - rowsSoFar) ≤ 0` (every sent request has a positive
limit equal to that minimum); it fetches a further page after a page only
if that page was non-empty, the accumulated count is below `maxRows`, and
at least one of the server `hasMore` flag or the local comparison
`offset + items.length < totalResults` signals more; and a completed run
stops after its last page only because both indicators signal no more, or
the accumulated count reached `maxRows`, or the page was empty, or the next
request's `min(pageSize, maxRows - rowsSoFar)` would be ≤ 0. -/
theorem query_pagination_conditions {T : Type} (server : Int → Int → SQPage T)
    (pageSize startOffset : Int) (maxRows : Option Int) (fuel : Nat) :
    (∀ r ∈ (query server pageSize startOffset maxRows fuel).1,
      0 < r.limit ∧ r.limit = effectiveLimit pageSize maxRows r.rowsBefore) ∧
    (∀ (i : Nat) (r : FetchRecord T),
      (query server pageSize startOffset maxRows fuel).1.get? i = some r →
      i + 1 < (query server pageSize startOffset maxRows fuel).1.length →
      r.page.items ≠ [] ∧
      reachedMaxRows maxRows (r.rowsBefore + r.page.items.length) = false ∧
      (r.page.hasMore = true ∨
        r.offset + (r.page.items.length : Int) < r.page.totalResults)) ∧
    (∀ (r : FetchRecord T) (res : SQResult T),
      (query server pageSize startOffset maxRows fuel).2 = some res →
      (query server pageSize startOffset maxRows fuel).1.getLast? = some r →
      ((r.page.hasMore = false ∧
          ¬ (r.offset + (r.page.items.length : Int) < r.page.totalResults)) ∨
        reachedMaxRows maxRows (r.rowsBefore + r.page.items.length) = true ∨
        r.page.items = [] ∨
        effectiveLimit pageSize maxRows (r.rowsBefore + r.page.items.length) ≤ 0)) := by
  refine ⟨fun r hr => ?_, fun i r hget hlen => ?_, fun r res hres hlast => ?_⟩
  · obtain ⟨h1, h2, h3⟩ :=
      queryLoop_mem_trace server pageSize maxRows fuel startOffset [] 0 0 r hr
    exact ⟨h2, h1⟩
  · exact queryLoop_get_continue server pageSize maxRows fuel startOffset [] 0 0 i r hget hlen
  · exact queryLoop_last_stop server pageSize maxRows fuel startOffset [] 0 0 r res hres hlast

/-- C5 witness: the concrete two-page run (`pageSize = 2`, 4 total rows).
The first request has a positive limit equal to the minimum; a second page
was fetched because the first page was non-empty, below `maxRows`, and its
`hasMore` flag was set; the run stopped after the second page because both
indicators signalled no more. -/
theorem query_pagination_conditions_witness :
    (0 < pageTraceFirst.limit ∧
      pageTraceFirst.limit = effectiveLimit 2 none pageTraceFirst.rowsBefore) ∧
    (pageTraceFirst.page.items ≠ [] ∧
      reachedMaxRows none
        (pageTraceFirst.rowsBefore + pageTraceFirst.page.items.length) = false ∧
      (pageTraceFirst.page.hasMore = true ∨
        pageTraceFirst.offset + (pageTraceFirst.page.items.length : Int) <
          pageTraceFirst.page.totalResults)) ∧
    ((pageTraceSecond.page.hasMore = false ∧
        ¬ (pageTraceSecond.offset + (pageTraceSecond.page.items.length : Int) <
          pageTraceSecond.page.totalResults)) ∨
      reachedMaxRows none
        (pageTraceSecond.rowsBefore + pageTraceSecond.page.items.length) = true ∨
      pageTraceSecond.page.items = [] ∨
      effectiveLimit 2 none
        (pageTraceSecond.rowsBefore + pageTraceSecond.page.items.length) ≤ 0) :=
  ⟨(query_pagination_conditions twoPageServer 2 0 none 2).1 pageTraceFirst (by decide),
   (query_pagination_conditions twoPageServer 2 0 none 2).2.1 0 pageTraceFirst
     (by decide) (by decide),
   (query_pagination_conditions twoPageServer 2 0 none 2).2.2 pageTraceSecond
     ⟨[(), (), (), ()], 4, 2, false⟩ (by decide) (by decide)⟩

end NetSuiteSDK
